import Mathlib

/-!
Verification of the datalake ingestion pipeline.

Shallow embedding of the Python sources:
  * `src/parsers/chatgpt_parser.py`  — conversation-tree flattening and the
    conversation/import reconciler (sections `ChatGPT` below);
  * `src/parsers/voice_parser.py`    — audio/transcript timestamp linking
    (section `Voice`);
  * `src/parsers/memory_parser.py`   — telemetry watermark ingestion
    (section `Memory`);
  * `src/parsers/claude_parser.py`   — session time aggregation
    (section `ClaudeSession`).

Machine details that the claims do not touch (SQLite connections, file IO,
logging, ffprobe metadata) are abstracted: tables become Lean lists of row
structures, parsed JSON lines become `Option` of a record (`none` models a
line that fails JSON decoding and is skipped), and file contents are plain
fields of the input records.
-/

namespace Datalake

/-! ## ChatGPT conversation trees (`src/parsers/chatgpt_parser.py`) -/

/-- One message payload inside a mapping node.  `hidden` models
`metadata.get('is_visually_hidden_from_conversation', False)`; `parentId`
models the `_parent_id` key that `parse_message_tree` attaches to an emitted
message; `contentText` stands for the text that `extract_text_content`
produces (content extraction is outside the verified claims). -/
structure ChatMessage where
  msgId : Option String := none
  authorRole : Option String := none
  createTime : Option Int := none
  modelSlug : Option String := none
  hidden : Bool := false
  contentText : String := ""
  parentId : Option String := none
deriving DecidableEq, Repr

/-- One node of the `mapping` object: an optional message, a parent
reference and a list of child ids. -/
structure MTNode where
  message : Option ChatMessage := none
  parent : Option String := none
  children : List String := []
deriving DecidableEq, Repr

/-- The `mapping` dictionary, as an association list in its (insertion)
iteration order; Python dict keys are unique. -/
abbrev Mapping := List (String × MTNode)

/-- Dictionary lookup `mapping[node_id]` (first matching key). -/
def lookupNode (m : Mapping) (k : String) : Option MTNode :=
  match m with
  | [] => none
  | (k2, v) :: rest => if k2 = k then some v else lookupNode rest k

/-- The key set of the mapping, in iteration order. -/
def mapKeys (m : Mapping) : List String := m.map Prod.fst

/-- The message a node contributes when it is visited: its `message`
payload if present and not visually hidden, with `_parent_id` set to the
node's parent (lines 47-55 of `chatgpt_parser.py`). -/
def emitNode (node : MTNode) : Option ChatMessage :=
  match node.message with
  | none => none
  | some msg => if msg.hidden then none else some { msg with parentId := node.parent }

/-- The message contributed by the node registered under `nodeId`. -/
def emitAt (m : Mapping) (nodeId : String) : Option ChatMessage :=
  (lookupNode m nodeId).bind emitNode

/-- Number of mapping keys not yet visited; the termination measure of the
traversal. -/
def unvisitedCount (m : Mapping) (visited : List String) : Nat :=
  ((mapKeys m).filter (fun k => !(visited.contains k))).length

theorem mem_mapKeys_of_lookup {m : Mapping} {k : String} {v : MTNode}
    (h : lookupNode m k = some v) : k ∈ mapKeys m := by
  induction m with
  | nil => simp [lookupNode] at h
  | cons p rest ih =>
    simp only [lookupNode] at h
    by_cases hk : p.1 = k
    · simp [mapKeys, hk]
    · simp only [hk, if_false] at h
      simpa [mapKeys] using Or.inr (ih h)

theorem countP_lt_of_mem {α : Type} {l : List α} {p1 p2 : α → Bool}
    (himp : ∀ x, p1 x = true → p2 x = true) {a : α} (ha : a ∈ l)
    (h1 : p1 a = false) (h2 : p2 a = true) :
    l.countP p1 < l.countP p2 := by
  induction l with
  | nil => cases ha
  | cons b t ih =>
    have hmono : t.countP p1 ≤ t.countP p2 := by
      apply List.countP_mono_left
      intro x _ hx
      exact himp x hx
    rcases List.mem_cons.mp ha with hab | hat
    · subst hab
      simp only [List.countP_cons, h1, h2, if_true]
      simp only [Bool.false_eq_true, if_false]
      omega
    · have := ih hat
      simp only [List.countP_cons]
      have : (if p1 b = true then 1 else 0) ≤ (if p2 b = true then 1 else 0) := by
        by_cases hb : p1 b = true
        · simp [hb, himp b hb]
        · simp [hb]
      omega

theorem unvisitedCount_cons_lt {m : Mapping} {n : String} {node : MTNode}
    {visited : List String} (hl : lookupNode m n = some node)
    (hv : ¬ visited.contains n = true) :
    unvisitedCount m (n :: visited) < unvisitedCount m visited := by
  have hmem : n ∈ mapKeys m := mem_mapKeys_of_lookup hl
  unfold unvisitedCount
  rw [← List.countP_eq_length_filter, ← List.countP_eq_length_filter]
  refine countP_lt_of_mem ?_ hmem ?_ ?_
  · intro x hx
    have hx' : ((x == n) || visited.contains x) = false := by
      simpa [List.contains_cons] using hx
    simp only [Bool.or_eq_false_iff] at hx'
    simpa using hx'.2
  · simp [List.contains_cons]
  · simp only [Bool.not_eq_true] at hv
    simpa using hv

/-- The tree traversal of `parse_message_tree` (lines 25-61 of
`chatgpt_parser.py`), written as a worklist loop: the Python function is a
recursive depth-first traversal that threads one shared `visited` set
through the recursive calls; processing the worklist `nodeId :: stack` is
that recursion's "visit `nodeId`, then continue with `stack`".  A node
already visited or absent from the mapping contributes nothing (line 40);
otherwise its message is emitted and its children are prepended to the
worklist in their listed order. -/
def parseLoop (m : Mapping) : List String → List String → List ChatMessage
  | [], _ => []
  | nodeId :: stack, visited =>
    match hl : lookupNode m nodeId with
    | none => parseLoop m stack visited
    | some node =>
      if visited.contains nodeId then parseLoop m stack visited
      else
        (match emitNode node with
         | none => []
         | some msg => [msg]) ++
          parseLoop m (node.children ++ stack) (nodeId :: visited)
termination_by stack visited => (unvisitedCount m visited, stack.length)
decreasing_by
  all_goals first
    | exact Prod.Lex.right _ (Nat.lt_succ_self _)
    | exact Prod.Lex.left _ _ (unvisitedCount_cons_lt hl (by assumption))

/-- Top-level `parse_message_tree(mapping, node_id)` with the default empty visited
set. -/
def parse_message_tree (m : Mapping) (nodeId : String) : List ChatMessage :=
  parseLoop m [nodeId] []

/-! ### Reference traversal for the flattening claims

`specPreorder` is the refinement reference for the spec sentence
"depth-first pre-order traversal starting at root, visiting the node's own
message before descending into children in their given order": it is the
naive fuel-bounded recursion with no visited set, so it is manifestly a
pre-order traversal.  `specVisitIds` lists the node ids that traversal
enters, in visit order; `fuelSufficient` says the fuel bound never
truncates the traversal. -/

/-- Naive depth-first pre-order traversal (no visited set), bounded by
fuel. -/
def specPreorder (m : Mapping) : Nat → String → List ChatMessage
  | 0, _ => []
  | fuel + 1, nodeId =>
    match lookupNode m nodeId with
    | none => []
    | some node =>
      (match emitNode node with
       | none => []
       | some msg => [msg]) ++
        (node.children.map (specPreorder m fuel)).flatten

/-- Node ids entered by the naive pre-order traversal, in visit order
(with repetitions if a node is reachable twice). -/
def specVisitIds (m : Mapping) : Nat → String → List String
  | 0, _ => []
  | fuel + 1, nodeId =>
    match lookupNode m nodeId with
    | none => []
    | some node => nodeId :: (node.children.map (specVisitIds m fuel)).flatten

/-- The fuel bound is large enough that `specPreorder` is never cut off
below `nodeId`. -/
def fuelSufficient (m : Mapping) : Nat → String → Bool
  | 0, nodeId => (lookupNode m nodeId).isNone
  | fuel + 1, nodeId =>
    match lookupNode m nodeId with
    | none => true
    | some node => node.children.all (fuelSufficient m fuel)

/-- Decidable acyclicity of a mapping: every path of the child graph that
stays inside the mapping dies out within `#keys + 1` steps, which holds
exactly when no cycle is reachable from a mapping key. -/
def acyclicB (m : Mapping) : Bool :=
  (mapKeys m).all (fun n => fuelSufficient m ((mapKeys m).length + 1) n)

/-! ## ChatGPT importer state (`ChatGPTImporter`, `src/parsers/chatgpt_parser.py`) -/

/-- One incoming conversation object of `conversations.json`.  Timestamps
are the export's epoch values (`None` when the key is absent); `0` is a
legal epoch value and — like `None` — is falsy in Python. -/
structure ConvInput where
  conversation_id : String
  title : Option String := none
  create_time : Option Int := none
  update_time : Option Int := none
  model_slug : Option String := none
  is_archived : Bool := false
  is_starred : Bool := false
  mapping : Mapping := []
deriving DecidableEq, Repr

/-- A row of the `chatgpt_conversations` table. -/
structure ConvRow where
  rowId : Nat
  conversation_id : String
  title : Option String := none
  create_time : Option Int := none
  update_time : Option Int := none
  model_slug : Option String := none
  is_archived : Bool := false
  is_starred : Bool := false
  import_id : Nat := 0
  source_device : String := ""
  message_count : Option Nat := none
deriving DecidableEq, Repr

/-- A row of the `chatgpt_messages` table. -/
structure MsgRow where
  conversation_rowId : Nat
  message_id : Option String := none
  parent_id : Option String := none
  role : String := "unknown"
  content_text : String := ""
  create_time : Option Int := none
  model_slug : Option String := none
  sequence_number : Nat := 0
deriving DecidableEq, Repr

/-- A row of the `chatgpt_imports` table. -/
structure ImportRow where
  rowId : Nat
  zip_hash : String
  original_filename : String := ""
  conversation_count : Nat := 0
  message_count : Option Nat := none
  source_device : String := ""
deriving DecidableEq, Repr

/-- The database state touched by the ChatGPT importer, plus the raw-zip
archive directory (`storedZips` records the content digests of archived
copies). -/
structure ChatState where
  conversations : List ConvRow := []
  messages : List MsgRow := []
  imports : List ImportRow := []
  storedZips : List String := []
  nextConvId : Nat := 1
  nextImportId : Nat := 1
deriving DecidableEq, Repr

/-- Python truthiness of an optional number: `None` and `0` are falsy. -/
def pyTruthy : Option Int → Bool
  | none => false
  | some x => x != 0

/-- The guard of the skip branch (line 222 of `chatgpt_parser.py`):
`update_time and existing['update_time'] and update_time <= existing['update_time']`. -/
def skipGuard (incoming stored : Option Int) : Bool :=
  pyTruthy incoming && pyTruthy stored && (incoming.getD 0 ≤ stored.getD 0)

/-- The `chatgpt_messages` row built for one flattened message (lines
279-294): note msg.get of author then of role, defaulting to 'unknown'. -/
def msgRowOf (dbConvId : Nat) (seq : Nat) (msg : ChatMessage) : MsgRow :=
  { conversation_rowId := dbConvId
    message_id := msg.msgId
    parent_id := msg.parentId
    role := msg.authorRole.getD "unknown"
    content_text := msg.contentText
    create_time := msg.createTime
    model_slug := msg.modelSlug
    sequence_number := seq }

/-- The freshly flattened, sequence-numbered message rows for a
conversation: root is the first mapping key, flattening is
`parse_message_tree`, and `enumerate` assigns dense zero-based sequence
numbers (lines 266-294).  An empty mapping contributes no rows. -/
def freshMessageRows (conv : ConvInput) (dbConvId : Nat) : List MsgRow :=
  match conv.mapping with
  | [] => []
  | (rootId, _) :: _ =>
    (parse_message_tree conv.mapping rootId).enum.map
      (fun p => msgRowOf dbConvId p.1 p.2)

/-- Message insertion and message-count update (lines 266-302); shared by
the insert and the update branch.  Returns the new state, the `is_new`
flag and `messages_imported`. -/
def insertMessages (conv : ConvInput) (dbConvId : Nat) (isNew : Bool)
    (s : ChatState) : ChatState × Bool × Nat :=
  match conv.mapping with
  | [] => (s, isNew, 0)
  | _ :: _ =>
    let rows := freshMessageRows conv dbConvId
    ({ s with
        messages := s.messages ++ rows
        conversations := s.conversations.map (fun r =>
          if r.rowId = dbConvId then { r with message_count := some rows.length } else r) },
     isNew, rows.length)

/-- Embedding of `ChatGPTImporter._import_conversation` (lines 206-302): look up the
external conversation id; skip when the truthiness-guarded timestamp
comparison says the incoming version is not newer; otherwise update in
place and delete the old child messages, or insert a new conversation row;
then flatten and insert the messages. -/
def importConversation (conv : ConvInput) (importId : Nat) (dev : String)
    (s : ChatState) : ChatState × Bool × Nat :=
  match s.conversations.find? (fun r => r.conversation_id == conv.conversation_id) with
  | some existing =>
    if skipGuard conv.update_time existing.update_time then
      (s, false, 0)
    else
      let s1 : ChatState :=
        { s with
            conversations := s.conversations.map (fun r =>
              if r.rowId = existing.rowId then
                { r with
                    title := conv.title
                    update_time := conv.update_time
                    model_slug := conv.model_slug
                    is_archived := conv.is_archived
                    is_starred := conv.is_starred
                    import_id := importId }
              else r)
            messages := s.messages.filter (fun mr => mr.conversation_rowId ≠ existing.rowId) }
      insertMessages conv existing.rowId false s1
  | none =>
    let row : ConvRow :=
      { rowId := s.nextConvId
        conversation_id := conv.conversation_id
        title := conv.title
        create_time := conv.create_time
        update_time := conv.update_time
        model_slug := conv.model_slug
        is_archived := conv.is_archived
        is_starred := conv.is_starred
        import_id := importId
        source_device := dev }
    let s1 : ChatState :=
      { s with
          conversations := s.conversations ++ [row]
          nextConvId := s.nextConvId + 1 }
    insertMessages conv row.rowId true s1

/-- The stats dictionary returned by `import_from_zip`. -/
structure ImportStats where
  conversations_new : Nat
  conversations_updated : Nat
  messages_imported : Nat
deriving DecidableEq, Repr

/-- A submitted export archive: its content digest (`hash_file`), its name,
and the decoded `conversations.json` (`none` when the zip has no such
member). -/
structure ZipInput where
  hash : String
  name : String := ""
  conversations : Option (List ConvInput) := none
deriving DecidableEq, Repr

/-- One iteration of the conversation loop of `import_from_zip` (lines
189-196): reconcile the conversation and accumulate the stats counters. -/
def importConvsStep (importId : Nat) (dev : String)
    (acc : ChatState × ImportStats) (conv : ConvInput) : ChatState × ImportStats :=
  let r := importConversation conv importId dev acc.1
  (r.1,
   { conversations_new := acc.2.conversations_new + (if r.2.1 then 1 else 0)
     conversations_updated := acc.2.conversations_updated + (if r.2.1 then 0 else 1)
     messages_imported := acc.2.messages_imported + r.2.2 })

/-- Embedding of `ChatGPTImporter.import_from_zip` (lines 142-204): digest-based
duplicate check first; then extraction, raw-zip archival, import-record
insertion, per-conversation reconciliation, and the final message-count
update of the import record. -/
def importFromZip (zip : ZipInput) (dev : String) (s : ChatState) :
    ChatState × ImportStats :=
  match s.imports.find? (fun r => r.zip_hash == zip.hash) with
  | some _ => (s, ⟨0, 0, 0⟩)
  | none =>
    match zip.conversations with
    | none => (s, ⟨0, 0, 0⟩)
    | some convs =>
      let s1 : ChatState := { s with storedZips := s.storedZips ++ [zip.hash] }
      let importId := s1.nextImportId
      let row : ImportRow :=
        { rowId := importId
          zip_hash := zip.hash
          original_filename := zip.name
          conversation_count := convs.length
          source_device := dev }
      let s2 : ChatState :=
        { s1 with imports := s1.imports ++ [row], nextImportId := importId + 1 }
      let done := convs.foldl (importConvsStep importId dev) (s2, ⟨0, 0, 0⟩)
      ({ done.1 with
          imports := done.1.imports.map (fun r =>
            if r.rowId = importId then { r with message_count := some done.2.messages_imported } else r) },
       done.2)

/-! ## Voice linking (`VoiceParser.link_sessions`, `src/parsers/voice_parser.py`) -/

/-- The fields of a scanned audio recording that `link_sessions` uses;
`ts` is the capture timestamp parsed from the filename, in seconds. -/
structure AudioItem where
  path : String
  ts : Int
deriving DecidableEq, Repr

/-- The fields of a scanned transcript that `link_sessions` uses. -/
structure TranscriptItem where
  path : String
  ts : Int
  word_count : Nat
deriving DecidableEq, Repr

/-- A `VoiceSession` dataclass value as produced by `link_sessions`. -/
structure VoiceLinked where
  audio : Option AudioItem
  transcript : Option TranscriptItem
  source_device : String
  success : Bool
  created_at : Int
deriving DecidableEq, Repr

/-- Stable insertion of `x` after every element `b` with `le b x`;
building block of the stable sort modelling Python's `list.sort`. -/
def stableInsert {α : Type} (le : α → α → Bool) (x : α) : List α → List α
  | [] => [x]
  | b :: t => if le b x then b :: stableInsert le x t else x :: b :: t

/-- Stable sort modelling Python's `list.sort(key=...)`: elements are
inserted left to right, each after the already-placed elements with keys
`≤` its own, so equal keys keep their original order. -/
def stableSort {α : Type} (le : α → α → Bool) (l : List α) : List α :=
  l.foldl (fun acc x => stableInsert le x acc) []

/-- The inner scan of `link_sessions` (lines 214-224): over all
transcripts, skipping used ones, keep the first transcript strictly
improving on the best difference so far, starting from
`best_diff = max_time_diff_seconds + 1`; a candidate must also be within
the window. -/
def findBestStep (audioTs : Int) (w : Nat) (used : List String)
    (acc : Option TranscriptItem × Nat) (t : TranscriptItem) :
    Option TranscriptItem × Nat :=
  if used.contains t.path then acc
  else
    let diff := (t.ts - audioTs).natAbs
    if diff < acc.2 ∧ diff ≤ w then (some t, diff) else acc

def findBest (audioTs : Int) (w : Nat) (transcripts : List TranscriptItem)
    (used : List String) : Option TranscriptItem :=
  (transcripts.foldl (findBestStep audioTs w used) (none, w + 1)).1

/-- The greedy loop of `link_sessions` (lines 213-235): one `VoiceSession`
per audio item, marking the matched transcript's path as used. -/
def linkLoop (w : Nat) (transcripts : List TranscriptItem) (dev : String) :
    List AudioItem → List String → List VoiceLinked × List String
  | [], used => ([], used)
  | a :: rest, used =>
    let best := findBest a.ts w transcripts used
    let used1 := match best with
      | some t => t.path :: used
      | none => used
    let sess : VoiceLinked :=
      { audio := some a
        transcript := best
        source_device := dev
        success := match best with
          | some t => decide (0 < t.word_count)
          | none => false
        created_at := a.ts }
    let r := linkLoop w transcripts dev rest used1
    (sess :: r.1, r.2)

/-- The orphan record emitted for a transcript never claimed by the greedy
loop (lines 238-246). -/
def orphanOf (dev : String) (t : TranscriptItem) : VoiceLinked :=
  { audio := none
    transcript := some t
    source_device := dev
    success := decide (0 < t.word_count)
    created_at := t.ts }

/-- Embedding of `VoiceParser.link_sessions` (lines 198-246) on already-scanned
collections: sort both by timestamp, run the greedy loop, then emit every
unclaimed transcript as an orphan. -/
def link_sessions (audios : List AudioItem) (transcripts : List TranscriptItem)
    (w : Nat) (dev : String) : List VoiceLinked :=
  let sortedA := stableSort (fun a b => a.ts ≤ b.ts) audios
  let sortedT := stableSort (fun a b => a.ts ≤ b.ts) transcripts
  let r := linkLoop w sortedT dev sortedA []
  r.1 ++ (sortedT.filter (fun t => !(r.2.contains t.path))).map (orphanOf dev)

/-! ## Telemetry watermark ingestion (`src/parsers/memory_parser.py`) -/

/-- The JSON object decoded from one telemetry line; `timestamp := none`
models an object lacking the `timestamp` key, and `payload` stands for the
remaining fields, which the watermark logic never inspects. -/
structure RawTelemetry where
  timestamp : Option Int := none
  payload : String := ""
deriving DecidableEq, Repr

/-- A row of the `memory_metrics` table (the fields the claims touch). -/
structure MetricRecord where
  timestamp_unix : Int
  source_device : String
  payload : String := ""
deriving DecidableEq, Repr

/-- A row of the `memory_events` table (the fields the claims touch). -/
structure EventRecord where
  timestamp_unix : Int
  source_device : String
  payload : String := ""
deriving DecidableEq, Repr

/-- One iteration of `MemoryParser.parse_metrics` (lines 78-101): a line
that fails JSON decoding is skipped; otherwise
`timestamp_unix = data.get('timestamp', 0)` and the record is dropped
unless `timestamp_unix > since_unix`. -/
def parseMetricLine (dev : String) (sinceUnix : Int) (line : Option RawTelemetry) :
    Option MetricRecord :=
  match line with
  | none => none
  | some data =>
    let tsUnix := data.timestamp.getD 0
    if tsUnix ≤ sinceUnix then none
    else some { timestamp_unix := tsUnix, source_device := dev, payload := data.payload }

/-- Embedding of `MemoryParser.parse_metrics` over the decoded lines of
`metrics.jsonl`. -/
def parse_metrics (dev : String) (sinceUnix : Int)
    (lines : List (Option RawTelemetry)) : List MetricRecord :=
  lines.filterMap (parseMetricLine dev sinceUnix)

/-- One iteration of `MemoryParser.parse_events` (lines 116-143): the same
watermark filter as for metrics. -/
def parseEventLine (dev : String) (sinceUnix : Int) (line : Option RawTelemetry) :
    Option EventRecord :=
  match line with
  | none => none
  | some data =>
    let tsUnix := data.timestamp.getD 0
    if tsUnix ≤ sinceUnix then none
    else some { timestamp_unix := tsUnix, source_device := dev, payload := data.payload }

/-- Embedding of `MemoryParser.parse_events` over the decoded lines of
`events.jsonl`. -/
def parse_events (dev : String) (sinceUnix : Int)
    (lines : List (Option RawTelemetry)) : List EventRecord :=
  lines.filterMap (parseEventLine dev sinceUnix)

/-- Embedding of `DatalakeMemoryIngester.get_last_metric_timestamp` (lines 177-185):
`SELECT MAX(timestamp_unix) ... WHERE source_device = ?`, with
`row['last_ts'] or 0` turning SQL `NULL` into `0`. -/
def get_last_metric_timestamp (store : List MetricRecord) (dev : String) : Int :=
  (((store.filter (fun r => r.source_device == dev)).map
    (fun r => r.timestamp_unix)).max?).getD 0

/-- Embedding of `DatalakeMemoryIngester.get_last_event_timestamp` (lines 187-195). -/
def get_last_event_timestamp (store : List EventRecord) (dev : String) : Int :=
  (((store.filter (fun r => r.source_device == dev)).map
    (fun r => r.timestamp_unix)).max?).getD 0

/-- Embedding of `ingest_metrics` (lines 197-226): plain appends, returning the count. -/
def ingest_metrics (store : List MetricRecord) (recs : List MetricRecord) :
    List MetricRecord × Nat :=
  (store ++ recs, recs.length)

/-- One incremental metrics run of `main` (lines 384-396): read the
watermark for the device, parse with it, append the survivors. -/
def metricsRun (dev : String) (store : List MetricRecord)
    (lines : List (Option RawTelemetry)) : List MetricRecord × Nat :=
  ingest_metrics store (parse_metrics dev (get_last_metric_timestamp store dev) lines)

/-! ## Claude session times (`ClaudeParser._parse_session_file`,
`src/parsers/claude_parser.py`) -/

/-- The fields of one decoded session-log line that the session-time logic
reads: the `type` discriminator (`data.get('type', 'unknown')`) and the
timestamp string (`data.get('timestamp', '')`). -/
structure SessLine where
  type : String := "unknown"
  timestamp : String := ""
deriving DecidableEq, Repr

/-- The derived time fields of a reconstructed session. -/
structure SessionTimes where
  started_at : Option String
  ended_at : Option String
  duration_seconds : Option Int
deriving DecidableEq, Repr

/-- Python truthiness of an optional string: `None` and `''` are falsy. -/
def pyTruthyStr : Option String → Bool
  | none => false
  | some s => s != ""

/-- The turn timestamps captured while streaming the lines (lines 204-217):
only `user`/`assistant` lines contribute, and only when their timestamp
string is non-empty; a line that fails JSON decoding (`none`) is skipped. -/
def capturedTimestamps (lines : List (Option SessLine)) : List String :=
  lines.filterMap (fun l =>
    match l with
    | none => none
    | some d =>
      if (d.type = "user" ∨ d.type = "assistant") ∧ d.timestamp ≠ "" then
        some d.timestamp
      else none)

/-- Number of turn (`user`/`assistant`) lines; `_parse_session_file`
returns `None` iff this is zero (line 284). -/
def turnCount (lines : List (Option SessLine)) : Nat :=
  (lines.filterMap id).countP (fun d => d.type == "user" || d.type == "assistant")

/-- The session-time derivation of `_parse_session_file` (lines 284-327):
`started_at`/`ended_at` are `min`/`max` of the captured timestamp strings
(or `None` when none were captured); if both are truthy, both are parsed
(`parseTs` abstracts `datetime.fromisoformat`; `none` models a raising
parse) and the duration is their difference in seconds, any parse failure
leaving the duration unset without aborting. -/
def sessionTimes (parseTs : String → Option Int)
    (lines : List (Option SessLine)) : Option SessionTimes :=
  if turnCount lines = 0 then none
  else
    let tss := capturedTimestamps lines
    let started := tss.min?
    let ended := tss.max?
    let duration :=
      if pyTruthyStr started && pyTruthyStr ended then
        match parseTs (started.getD ""), parseTs (ended.getD "") with
        | some a, some b => some (b - a)
        | _, _ => none
      else none
    some { started_at := started, ended_at := ended, duration_seconds := duration }

/-! ## Concrete fixtures used by examples, witnesses and counterexamples -/

/-- Cyclic mapping from the spec's cycle-termination test: node A whose
child is B whose child is A again. -/
def cycleMap : Mapping :=
  [("A", { message := some { msgId := some "mA" }, children := ["B"] }),
   ("B", { message := some { msgId := some "mB", parentId := some "A" },
           parent := some "A", children := ["A"] })]

/-- Three-node mapping from the spec's traversal-order test: root carrying
msg0, children c1 (msg1) and c2 (msg2). -/
def exThreeMap : Mapping :=
  [("root", { message := some { msgId := some "msg0" }, children := ["c1", "c2"] }),
   ("c1", { message := some { msgId := some "msg1", parentId := some "root" },
            parent := some "root", children := [] }),
   ("c2", { message := some { msgId := some "msg2", parentId := some "root" },
            parent := some "root", children := [] })]

/-- Acyclic but non-tree (diamond) mapping: A has children B and C, and B
and C share the child D. -/
def diamondMap : Mapping :=
  [("A", { message := some { msgId := some "mA" }, children := ["B", "C"] }),
   ("B", { message := some { msgId := some "mB", parentId := some "A" },
           parent := some "A", children := ["D"] }),
   ("C", { message := some { msgId := some "mC", parentId := some "A" },
           parent := some "A", children := ["D"] }),
   ("D", { message := some { msgId := some "mD", parentId := some "B" },
           parent := some "B", children := [] })]

/-- Stored conversation row with update-timestamp 5, for the reconciler
fixtures. -/
def exConvRow : ConvRow :=
  { rowId := 1, conversation_id := "c", update_time := some 5 }

/-- Store holding `exConvRow` and one of its child messages. -/
def exChatState : ChatState :=
  { conversations := [exConvRow]
    messages := [{ conversation_rowId := 1, sequence_number := 0 }]
    nextConvId := 2 }

/-- Incoming version of conversation `c` whose update-timestamp is `0` —
an epoch value that is not strictly newer than the stored `5`, but falsy
in Python. -/
def convZeroTs : ConvInput :=
  { conversation_id := "c", update_time := some 0 }

/-- Incoming version of conversation `c` with update-timestamp 4: older
than the stored 5, and truthy. -/
def convOlderTs : ConvInput :=
  { conversation_id := "c", update_time := some 4 }

/-- Export archive with one conversation (whose mapping is empty, so
the import writes the conversation row and no message rows). -/
def exZip : ZipInput :=
  { hash := "digest1"
    name := "conversations.zip"
    conversations := some [{ conversation_id := "c1", update_time := some 9 }] }

/-- Store that already holds an import batch with digest `digest1`. -/
def exImportedState : ChatState :=
  { imports := [{ rowId := 1, zip_hash := "digest1", conversation_count := 3 }]
    nextImportId := 2 }

/-- Audio capture at 12:00:00 (43200 seconds into the day). -/
def exAudio : AudioItem := { path := "a1", ts := 43200 }

/-- Transcript at 12:00:30. -/
def exTr1 : TranscriptItem := { path := "t1", ts := 43230, word_count := 5 }

/-- Transcript at 12:05:00. -/
def exTr2 : TranscriptItem := { path := "t2", ts := 43500, word_count := 3 }

/-- Metric log lines with timestamps 100 and 200. -/
def exLines1 : List (Option RawTelemetry) :=
  [some { timestamp := some 100 }, some { timestamp := some 200 }]

/-- Metric log lines with timestamps 150 and 250. -/
def exLines2 : List (Option RawTelemetry) :=
  [some { timestamp := some 150 }, some { timestamp := some 250 }]

/-- Session log with a single user turn carrying timestamp string "b". -/
def exSingleTurn : List (Option SessLine) :=
  [some { type := "user", timestamp := "b" }]

/-- Session log with two turns and one garbage line. -/
def exTwoTurns : List (Option SessLine) :=
  [some { type := "user", timestamp := "a" },
   none,
   some { type := "assistant", timestamp := "b" }]

/-! ## Traversal lemmas -/

theorem contains_ext {v1 v2 : List String} (h : ∀ x, x ∈ v1 ↔ x ∈ v2)
    (x : String) : v1.contains x = v2.contains x := by
  have h1 : v1.contains x = decide (x ∈ v1) := by simp
  have h2 : v2.contains x = decide (x ∈ v2) := by simp
  rw [h1, h2]
  exact decide_eq_decide.mpr (h x)

/-- The traversal only reads the visited set through membership: two
visited lists with the same members drive identical runs. -/
theorem parseLoop_congr (m : Mapping) :
    ∀ (stack v1 : List String), ∀ v2, (∀ x, v1.contains x = v2.contains x) →
      parseLoop m stack v1 = parseLoop m stack v2 := by
  intro stack v1
  induction stack, v1 using parseLoop.induct m with
  | case1 visited => intro v2 _; simp [parseLoop]
  | case2 nodeId stack visited hl ih =>
    intro v2 hc
    rw [parseLoop, parseLoop, hl]
    exact ih v2 hc
  | case3 nodeId stack visited node hl hv ih =>
    intro v2 hc
    rw [parseLoop, parseLoop, hl]
    rw [← hc nodeId, hv]
    simp only [if_true]
    exact ih v2 hc
  | case4 nodeId stack visited node hl hv ih =>
    intro v2 hc
    have hv' : visited.contains nodeId = false := by simpa using hv
    rw [parseLoop, parseLoop, hl]
    rw [← hc nodeId, hv']
    simp only [Bool.false_eq_true, if_false]
    have hcc : ∀ x, (nodeId :: visited).contains x = (nodeId :: v2).contains x := by
      intro x
      rw [List.contains_cons, List.contains_cons, hc x]
    rw [ih (nodeId :: v2) hcc]

/-- Every run of the traversal is the image of a duplicate-free list of
node ids, none of them already visited: each node's message is emitted at
most once. -/
theorem parseLoop_emitted_ids (m : Mapping) :
    ∀ (stack visited : List String), ∃ ids : List String,
      ids.Nodup ∧ (∀ i ∈ ids, visited.contains i = false) ∧
      parseLoop m stack visited = ids.filterMap (emitAt m) := by
  intro stack visited
  induction stack, visited using parseLoop.induct m with
  | case1 visited => exact ⟨[], by simp, by simp, by simp [parseLoop]⟩
  | case2 nodeId stack visited hl ih =>
    obtain ⟨ids, hnd, hdis, heq⟩ := ih
    exact ⟨ids, hnd, hdis, by rw [parseLoop, hl]; exact heq⟩
  | case3 nodeId stack visited node hl hv ih =>
    obtain ⟨ids, hnd, hdis, heq⟩ := ih
    refine ⟨ids, hnd, hdis, ?_⟩
    rw [parseLoop, hl, hv]
    simpa using heq
  | case4 nodeId stack visited node hl hv ih =>
    obtain ⟨ids, hnd, hdis, heq⟩ := ih
    have hv' : visited.contains nodeId = false := by simpa using hv
    have hni : nodeId ∉ ids := by
      intro hmem
      have := hdis nodeId hmem
      simp [List.contains_cons] at this
    refine ⟨nodeId :: ids, List.nodup_cons.mpr ⟨hni, hnd⟩, ?_, ?_⟩
    · intro i hi
      rcases List.mem_cons.mp hi with hi | hi
      · subst hi; exact hv'
      · have := hdis i hi
        rw [List.contains_cons] at this
        simpa using (Bool.or_eq_false_iff.mp this).2
    · rw [parseLoop, hl, hv']
      simp only [Bool.false_eq_true, if_false]
      rw [List.filterMap_cons]
      have hemit : emitAt m nodeId = emitNode node := by
        simp [emitAt, hl]
      cases he : emitNode node with
      | none => rw [hemit, he]; simpa using heq
      | some msg => rw [hemit, he]; simpa using heq

/-- On a mapping whose reachable part below `n` is entered at most once per
node (`specVisitIds` duplicate-free) and fully explored within `fuel`, the
visited-set traversal agrees with the naive pre-order traversal. -/
theorem parseLoop_spec (m : Mapping) :
    ∀ (fuel : Nat) (n : String) (stack visited : List String),
      fuelSufficient m fuel n = true →
      (specVisitIds m fuel n).Nodup →
      (∀ i ∈ specVisitIds m fuel n, visited.contains i = false) →
      parseLoop m (n :: stack) visited =
        specPreorder m fuel n ++
          parseLoop m stack (specVisitIds m fuel n ++ visited) := by
  intro fuel
  induction fuel with
  | zero =>
    intro n stack visited hf _ _
    have hl : lookupNode m n = none := by
      simpa [fuelSufficient, Option.isNone_iff_eq_none] using hf
    rw [parseLoop, hl]
    simp [specPreorder, specVisitIds]
  | succ fuel ih =>
    intro n stack visited hf hnd hdis
    cases hl : lookupNode m n with
    | none =>
      rw [parseLoop, hl]
      simp [specPreorder, specVisitIds, hl]
    | some node =>
      have hf' : ∀ c ∈ node.children, fuelSufficient m fuel c = true := by
        have hall : node.children.all (fuelSufficient m fuel) = true := by
          simpa [fuelSufficient, hl] using hf
        simpa [List.all_eq_true] using hall
      have hids : specVisitIds m (fuel + 1) n
          = n :: (node.children.map (specVisitIds m fuel)).flatten := by
        simp [specVisitIds, hl]
      have hpre : specPreorder m (fuel + 1) n
          = (match emitNode node with
             | none => []
             | some msg => [msg]) ++ (node.children.map (specPreorder m fuel)).flatten := by
        simp [specPreorder, hl]
      rw [hids] at hnd hdis
      have hv' : visited.contains n = false := hdis n (by simp)
      have hnmem : n ∉ (node.children.map (specVisitIds m fuel)).flatten :=
        (List.nodup_cons.mp hnd).1
      have hnd' : ((node.children.map (specVisitIds m fuel)).flatten).Nodup :=
        (List.nodup_cons.mp hnd).2
      have inner : ∀ (cs : List String) (stack visited : List String),
          (∀ c ∈ cs, fuelSufficient m fuel c = true) →
          ((cs.map (specVisitIds m fuel)).flatten).Nodup →
          (∀ i ∈ (cs.map (specVisitIds m fuel)).flatten, visited.contains i = false) →
          parseLoop m (cs ++ stack) visited =
            (cs.map (specPreorder m fuel)).flatten ++
              parseLoop m stack ((cs.map (specVisitIds m fuel)).flatten ++ visited) := by
        intro cs
        induction cs with
        | nil => intro stack visited _ _ _; simp
        | cons c rest ihc =>
          intro stack visited hfs hndc hdisc
          have hsplit : ((c :: rest).map (specVisitIds m fuel)).flatten
              = specVisitIds m fuel c ++ (rest.map (specVisitIds m fuel)).flatten := by
            simp
          rw [hsplit] at hndc hdisc
          obtain ⟨hnd1, hnd2, hdisj⟩ := List.nodup_append.mp hndc
          rw [List.cons_append]
          rw [ih c (rest ++ stack) visited (hfs c (by simp)) hnd1
            (fun i hi => hdisc i (by simp [hi]))]
          have hdis2 : ∀ i ∈ (rest.map (specVisitIds m fuel)).flatten,
              (specVisitIds m fuel c ++ visited).contains i = false := by
            intro i hi
            have h1 : i ∉ specVisitIds m fuel c := fun hmem => (hdisj hmem) hi
            have h2 : i ∉ visited := by simpa using hdisc i (by simp [hi])
            simp [List.mem_append, h1, h2]
          rw [ihc stack (specVisitIds m fuel c ++ visited)
            (fun c' hc' => hfs c' (by simp [hc'])) hnd2 hdis2]
          have hperm : ∀ x,
              ((rest.map (specVisitIds m fuel)).flatten
                ++ (specVisitIds m fuel c ++ visited)).contains x
              = ((specVisitIds m fuel c ++ (rest.map (specVisitIds m fuel)).flatten)
                ++ visited).contains x := by
            intro x
            refine contains_ext (fun y => ?_) x
            simp only [List.mem_append]
            tauto
          rw [parseLoop_congr m stack _ _ hperm]
          simp [List.append_assoc]
      rw [parseLoop, hl, hv']
      simp only [Bool.false_eq_true, if_false]
      have hdis'' : ∀ i ∈ (node.children.map (specVisitIds m fuel)).flatten,
          (n :: visited).contains i = false := by
        intro i hi
        have h1 : i ≠ n := by rintro rfl; exact hnmem hi
        have h2 : i ∉ visited := by simpa using hdis i (by simp [hi])
        simp [List.contains_cons, h1, h2]
      rw [inner node.children stack (n :: visited) hf' hnd' hdis'']
      have hperm2 : ∀ x,
          ((node.children.map (specVisitIds m fuel)).flatten ++ (n :: visited)).contains x
          = ((n :: (node.children.map (specVisitIds m fuel)).flatten) ++ visited).contains x := by
        intro x
        refine contains_ext (fun y => ?_) x
        simp only [List.mem_append, List.mem_cons]
        tauto
      rw [parseLoop_congr m stack _ _ hperm2]
      rw [hpre]
      simp only [List.append_assoc, List.cons_append, List.nil_append]
      rw [hids, List.cons_append]

/-! ## Claim C3 -/

/-- C3.  For every node mapping and chosen root id — including cyclic
mappings and repeated child ids — tree flattening terminates (`parseLoop`
is a total Lean function, so every run below is a terminating computation)
and emits each node's message at most once: the output is the image of a
duplicate-free list of node ids.  A node id already visited, or absent
from the mapping, contributes an empty result instead of recursing, and on
the spec's crafted cycle (A → B → A) flattening yields each message
exactly once. -/
theorem flatten_terminates_and_emits_once (m : Mapping) :
    (∀ root, lookupNode m root = none → parse_message_tree m root = []) ∧
    (∀ (nodeId : String) (stack visited : List String),
      visited.contains nodeId = true ∨ lookupNode m nodeId = none →
      parseLoop m (nodeId :: stack) visited = parseLoop m stack visited) ∧
    (∀ root, ∃ ids : List String, ids.Nodup ∧
      parse_message_tree m root = ids.filterMap (emitAt m)) ∧
    parse_message_tree cycleMap "A" =
      [{ msgId := some "mA" }, { msgId := some "mB", parentId := some "A" }] := by
  have hskip : ∀ (nodeId : String) (stack visited : List String),
      visited.contains nodeId = true ∨ lookupNode m nodeId = none →
      parseLoop m (nodeId :: stack) visited = parseLoop m stack visited := by
    intro nodeId stack visited h
    rcases h with h | h
    · rw [parseLoop]
      cases hl : lookupNode m nodeId with
      | none => rfl
      | some node => rw [h]; simp
    · rw [parseLoop, h]
  refine ⟨?_, hskip, ?_, ?_⟩
  · intro root hl
    rw [parse_message_tree, parseLoop, hl, parseLoop]
  · intro root
    obtain ⟨ids, hnd, _, heq⟩ := parseLoop_emitted_ids m [root] []
    exact ⟨ids, hnd, heq⟩
  · simp [parse_message_tree, parseLoop, lookupNode, cycleMap, emitNode]

/-- Witness for C3: the skip behaviour and the absent-root behaviour at
concrete inputs. -/
theorem flatten_terminates_and_emits_once_witness :
    parseLoop cycleMap ["A"] ["A"] = parseLoop cycleMap [] ["A"] ∧
    parse_message_tree cycleMap "X" = [] :=
  ⟨(flatten_terminates_and_emits_once cycleMap).2.1 "A" [] ["A"] (Or.inl (by decide)),
   (flatten_terminates_and_emits_once cycleMap).1 "X" (by decide)⟩

/-! ## Claim C4 -/

/-- Counterexample to C4 as stated: the diamond mapping is acyclic
(`acyclicB`), node C's only child is D, yet flattening emits D's message
(position 2) before C's message (position 3) because D was already visited
inside B's subtree — so on acyclic-but-non-tree mappings a node's own
message is not always emitted before its children's messages. -/
theorem flatten_preorder_counterexample :
    acyclicB diamondMap = true ∧
    lookupNode diamondMap "C" =
      some { message := some { msgId := some "mC", parentId := some "A" },
             parent := some "A", children := ["D"] } ∧
    parse_message_tree diamondMap "A" =
      [{ msgId := some "mA" },
       { msgId := some "mB", parentId := some "A" },
       { msgId := some "mD", parentId := some "B" },
       { msgId := some "mC", parentId := some "A" }] := by
  refine ⟨by decide, by decide, ?_⟩
  simp [parse_message_tree, parseLoop, lookupNode, diamondMap, emitNode]

/-- C4, amended.  For every mapping whose naive depth-first pre-order from
the chosen root completes within some fuel bound and enters no node twice
(every tree-shaped reachable part qualifies; plain acyclicity does not),
flattening equals the naive pre-order traversal `specPreorder` — own
message first, then the children in their listed order; each emitted
message is assigned a dense zero-based sequence number equal to its output
position; and the spec's three-node example flattens to
[msg0, msg1, msg2] with sequence numbers 0, 1, 2. -/
theorem flatten_is_preorder_on_trees :
    ∀ (m : Mapping) (root : String) (fuel : Nat),
      fuelSufficient m fuel root = true →
      (specVisitIds m fuel root).Nodup →
      parse_message_tree m root = specPreorder m fuel root ∧
      (∀ (conv : ConvInput) (dbId : Nat),
        (freshMessageRows conv dbId).map (fun r => r.sequence_number) =
          List.range (freshMessageRows conv dbId).length) ∧
      parse_message_tree exThreeMap "root" =
        [{ msgId := some "msg0" },
         { msgId := some "msg1", parentId := some "root" },
         { msgId := some "msg2", parentId := some "root" }] ∧
      (freshMessageRows { conversation_id := "e", mapping := exThreeMap } 1).map
          (fun r => r.sequence_number) = [0, 1, 2] := by
  intro m root fuel hf hnd
  have hseq : ∀ (conv : ConvInput) (dbId : Nat),
      (freshMessageRows conv dbId).map (fun r => r.sequence_number) =
        List.range (freshMessageRows conv dbId).length := by
    intro conv dbId
    unfold freshMessageRows
    cases conv.mapping with
    | nil => simp
    | cons p rest =>
      rw [List.map_map, List.length_map]
      have : ((fun r => r.sequence_number) ∘
          fun (q : Nat × ChatMessage) => msgRowOf dbId q.1 q.2) = Prod.fst := by
        funext q
        rfl
      rw [this, List.enum_map_fst, List.enum_length]
  refine ⟨?_, hseq, ?_, ?_⟩
  · have := parseLoop_spec m fuel root [] [] hf hnd (by intro i _; rfl)
    rw [parse_message_tree, this, parseLoop]
    simp
  · simp [parse_message_tree, parseLoop, lookupNode, exThreeMap, emitNode]
  · have h3 : parse_message_tree exThreeMap "root" =
        [{ msgId := some "msg0" },
         { msgId := some "msg1", parentId := some "root" },
         { msgId := some "msg2", parentId := some "root" }] := by
      simp [parse_message_tree, parseLoop, lookupNode, exThreeMap, emitNode]
    have hfr : freshMessageRows { conversation_id := "e", mapping := exThreeMap } 1
        = (parse_message_tree exThreeMap "root").enum.map (fun p => msgRowOf 1 p.1 p.2) :=
      rfl
    rw [hfr, h3]
    decide

/-- Witness for C4: the three-node example discharges the fuel and
duplicate-freedom hypotheses with fuel 4. -/
theorem flatten_is_preorder_on_trees_witness :
    parse_message_tree exThreeMap "root" = specPreorder exThreeMap 4 "root" :=
  (flatten_is_preorder_on_trees exThreeMap "root" 4 (by decide) (by decide)).1

/-! ## Claim C1 -/

/-- Counterexample to C1 as stated: the stored conversation has
update-timestamp 5, the incoming one has update-timestamp 0 — not strictly
newer, so the claim demands a complete skip — yet the reconciler takes the
update path (Python's `update_time and ...` guard treats the legal epoch
value 0 as missing) and deletes the stored child message. -/
theorem conversation_reconcile_counterexample :
    exChatState.messages ≠ [] ∧
    convZeroTs.update_time = some 0 ∧ exConvRow.update_time = some 5 ∧
    (importConversation convZeroTs 2 "laptop" exChatState).1.messages = [] := by
  decide

/-- Effect of `insertMessages` on the state: it appends the fresh rows,
reports their count, and at most resets `message_count` on rows of the
target conversation. -/
theorem insertMessages_spec (conv : ConvInput) (dbId : Nat) (isNew : Bool)
    (s : ChatState) :
    (insertMessages conv dbId isNew s).2.1 = isNew ∧
    (insertMessages conv dbId isNew s).2.2 = (freshMessageRows conv dbId).length ∧
    (insertMessages conv dbId isNew s).1.messages = s.messages ++ freshMessageRows conv dbId ∧
    ∀ r ∈ (insertMessages conv dbId isNew s).1.conversations,
      ∃ r0 ∈ s.conversations,
        r = r0 ∨ (r0.rowId = dbId ∧
          r = { r0 with message_count := some (freshMessageRows conv dbId).length }) := by
  unfold insertMessages
  cases hm : conv.mapping with
  | nil =>
    have hfr : freshMessageRows conv dbId = [] := by
      unfold freshMessageRows
      rw [hm]
    rw [hfr]
    exact ⟨rfl, rfl, by simp, fun r hr => ⟨r, hr, Or.inl rfl⟩⟩
  | cons p rest =>
    refine ⟨rfl, rfl, rfl, ?_⟩
    intro r hr
    simp only [List.mem_map] at hr
    obtain ⟨r0, hr0mem, hr0⟩ := hr
    refine ⟨r0, hr0mem, ?_⟩
    by_cases h0 : r0.rowId = dbId
    · right
      refine ⟨h0, ?_⟩
      rw [← hr0]
      simp [h0]
    · left
      rw [← hr0]
      simp [h0]

/-- C1, amended.  For every conversation import finding an existing row
with the same external conversation id: when both update-timestamps are
present and nonzero and the incoming one is not strictly newer (ties
included), the reconciler skips entirely — the state is unchanged and
zero messages get imported; otherwise (newer, or a timestamp missing or zero,
both falsy in Python) it updates the row's mutable fields in place, deletes
all child messages of that conversation, and inserts the freshly flattened
message set with new dense zero-based sequence numbers, leaving other
conversations' messages untouched. -/
theorem conversation_reconcile :
    ∀ (conv : ConvInput) (importId : Nat) (dev : String) (s : ChatState) (ex : ConvRow),
      s.conversations.find? (fun r => r.conversation_id == conv.conversation_id) = some ex →
      (skipGuard conv.update_time ex.update_time = true →
        importConversation conv importId dev s = (s, false, 0)) ∧
      (skipGuard conv.update_time ex.update_time = false →
        (importConversation conv importId dev s).2.1 = false ∧
        (importConversation conv importId dev s).2.2 =
          (freshMessageRows conv ex.rowId).length ∧
        (importConversation conv importId dev s).1.messages =
          s.messages.filter (fun mr => mr.conversation_rowId ≠ ex.rowId)
            ++ freshMessageRows conv ex.rowId ∧
        (freshMessageRows conv ex.rowId).map (fun r => r.sequence_number) =
          List.range (freshMessageRows conv ex.rowId).length ∧
        (∀ r ∈ (importConversation conv importId dev s).1.conversations,
          r.rowId = ex.rowId →
            r.title = conv.title ∧ r.update_time = conv.update_time ∧
            r.model_slug = conv.model_slug ∧ r.is_archived = conv.is_archived ∧
            r.is_starred = conv.is_starred ∧ r.import_id = importId) ∧
        (∀ r ∈ (importConversation conv importId dev s).1.conversations,
          r.rowId ≠ ex.rowId → r ∈ s.conversations)) := by
  intro conv importId dev s ex hfind
  constructor
  · intro hskip
    unfold importConversation
    rw [hfind]
    simp [hskip]
  · intro hskip
    have hseq : (freshMessageRows conv ex.rowId).map (fun r => r.sequence_number) =
        List.range (freshMessageRows conv ex.rowId).length := by
      unfold freshMessageRows
      cases conv.mapping with
      | nil => simp
      | cons p rest =>
        rw [List.map_map, List.length_map]
        have : ((fun r => r.sequence_number) ∘
            fun (q : Nat × ChatMessage) => msgRowOf ex.rowId q.1 q.2) = Prod.fst := by
          funext q
          rfl
        rw [this, List.enum_map_fst, List.enum_length]
    have hrun : importConversation conv importId dev s =
        insertMessages conv ex.rowId false
          { s with
              conversations := s.conversations.map (fun r =>
                if r.rowId = ex.rowId then
                  { r with
                      title := conv.title
                      update_time := conv.update_time
                      model_slug := conv.model_slug
                      is_archived := conv.is_archived
                      is_starred := conv.is_starred
                      import_id := importId }
                else r)
              messages := s.messages.filter (fun mr => mr.conversation_rowId ≠ ex.rowId) } := by
      unfold importConversation
      rw [hfind]
      simp [hskip]
    obtain ⟨h1, h2, h3, h4⟩ := insertMessages_spec conv ex.rowId false
      { s with
          conversations := s.conversations.map (fun r =>
            if r.rowId = ex.rowId then
              { r with
                  title := conv.title
                  update_time := conv.update_time
                  model_slug := conv.model_slug
                  is_archived := conv.is_archived
                  is_starred := conv.is_starred
                  import_id := importId }
            else r)
          messages := s.messages.filter (fun mr => mr.conversation_rowId ≠ ex.rowId) }
    rw [hrun]
    refine ⟨h1, h2, h3, hseq, ?_, ?_⟩
    · intro r hr hrow
      obtain ⟨r1, hr1mem, hcase⟩ := h4 r hr
      simp only [List.mem_map] at hr1mem
      obtain ⟨r0, _, hr0⟩ := hr1mem
      by_cases h0 : r0.rowId = ex.rowId
      · rw [if_pos h0] at hr0
        rcases hcase with hre | ⟨_, hre⟩ <;> rw [hre, ← hr0] <;> simp
      · rw [if_neg h0] at hr0
        subst hr0
        rcases hcase with hre | ⟨hid, _⟩
        · subst hre
          exact absurd hrow h0
        · exact absurd hid h0
    · intro r hr hrow
      obtain ⟨r1, hr1mem, hcase⟩ := h4 r hr
      have hrid : r.rowId = r1.rowId := by
        rcases hcase with hre | ⟨_, hre⟩ <;> rw [hre]
      simp only [List.mem_map] at hr1mem
      obtain ⟨r0, hr0mem, hr0⟩ := hr1mem
      by_cases h0 : r0.rowId = ex.rowId
      · rw [if_pos h0] at hr0
        exfalso
        apply hrow
        rw [hrid, ← hr0]
        exact h0
      · rw [if_neg h0] at hr0
        subst hr0
        rcases hcase with hre | ⟨hid, _⟩
        · subst hre
          exact hr0mem
        · exact absurd hid h0

/-- Witness for C1: re-ingesting conversation `c` with the older truthy
timestamp 4 against the stored timestamp 5 is a complete no-op. -/
theorem conversation_reconcile_witness :
    importConversation convOlderTs 7 "laptop" exChatState = (exChatState, false, 0) :=
  (conversation_reconcile convOlderTs 7 "laptop" exChatState exConvRow
    (by decide)).1 (by decide)

/-! ## Claim C2 -/

theorem insertMessages_imports (conv : ConvInput) (dbId : Nat) (isNew : Bool)
    (s : ChatState) : (insertMessages conv dbId isNew s).1.imports = s.imports := by
  unfold insertMessages
  split <;> rfl

theorem importConversation_imports (conv : ConvInput) (importId : Nat)
    (dev : String) (s : ChatState) :
    (importConversation conv importId dev s).1.imports = s.imports := by
  unfold importConversation
  split
  · split
    · rfl
    · exact insertMessages_imports ..
  · exact insertMessages_imports ..

theorem foldl_importConvsStep_imports (importId : Nat) (dev : String) :
    ∀ (convs : List ConvInput) (acc : ChatState × ImportStats),
      (convs.foldl (importConvsStep importId dev) acc).1.imports = acc.1.imports := by
  intro convs
  induction convs with
  | nil => intro acc; rfl
  | cons c t ih =>
    intro acc
    rw [List.foldl_cons, ih]
    exact importConversation_imports ..

/-- Counterexample to C2 as stated: the first import of `exZip` reports one
new conversation; re-submitting the byte-identical archive is a no-op but
returns all-zero counts, not the previously recorded counts (1, 0, 0). -/
theorem archive_dedup_counterexample :
    (importFromZip exZip "laptop" {}).2 = ⟨1, 0, 0⟩ ∧
    (importFromZip exZip "laptop" (importFromZip exZip "laptop" {}).1).2 = ⟨0, 0, 0⟩ ∧
    (importFromZip exZip "laptop" (importFromZip exZip "laptop" {}).1).1 =
      (importFromZip exZip "laptop" {}).1 := by
  refine ⟨by decide, by decide, by decide⟩

/-- C2, amended.  If an import batch with the submitted archive's content
digest already exists, the entire import is a no-op decided before any
parsing: the state (rows, archive copies) is returned unchanged and the
call reports all-zero counts (not the previously recorded ones).
Re-running ingestion of byte-identical input therefore leaves the stored
state identical and the second run reports zero new records. -/
theorem archive_dedup :
    ∀ (zip : ZipInput) (dev : String) (s : ChatState),
      ((∃ r ∈ s.imports, r.zip_hash = zip.hash) →
        importFromZip zip dev s = (s, ⟨0, 0, 0⟩)) ∧
      importFromZip zip dev (importFromZip zip dev s).1 =
        ((importFromZip zip dev s).1, ⟨0, 0, 0⟩) := by
  intro zip dev s
  have hdup : ∀ (st : ChatState), (∃ r ∈ st.imports, r.zip_hash = zip.hash) →
      importFromZip zip dev st = (st, ⟨0, 0, 0⟩) := by
    intro st ⟨r, hr, hhash⟩
    have hsome : (st.imports.find? (fun r => r.zip_hash == zip.hash)).isSome := by
      rw [List.find?_isSome]
      exact ⟨r, hr, by simp [hhash]⟩
    obtain ⟨y, hy⟩ := Option.isSome_iff_exists.mp hsome
    unfold importFromZip
    rw [hy]
  refine ⟨hdup s, ?_⟩
  cases hfind : s.imports.find? (fun r => r.zip_hash == zip.hash) with
  | some y =>
    have h1 : importFromZip zip dev s = (s, ⟨0, 0, 0⟩) := by
      unfold importFromZip
      rw [hfind]
    rw [h1]
    exact h1
  | none =>
    cases hconv : zip.conversations with
    | none =>
      have h1 : importFromZip zip dev s = (s, ⟨0, 0, 0⟩) := by
        unfold importFromZip
        rw [hfind, hconv]
      rw [h1]
      exact h1
    | some convs =>
      apply hdup
      unfold importFromZip
      rw [hfind, hconv]
      simp only [List.mem_map]
      have himports := foldl_importConvsStep_imports s.nextImportId dev convs
        ({ s with
            storedZips := s.storedZips ++ [zip.hash]
            imports := s.imports ++
              [{ rowId := s.nextImportId
                 zip_hash := zip.hash
                 original_filename := zip.name
                 conversation_count := convs.length
                 source_device := dev }]
            nextImportId := s.nextImportId + 1 }, ⟨0, 0, 0⟩)
      rw [himports]
      refine ⟨_, ⟨⟨{ rowId := s.nextImportId
                     zip_hash := zip.hash
                     original_filename := zip.name
                     conversation_count := convs.length
                     source_device := dev }, by simp, rfl⟩, ?_⟩⟩
      simp

/-- Witness for C2: submitting `exZip` against a store that already holds
an import batch with digest `digest1` is a complete no-op with zero
counts. -/
theorem archive_dedup_witness :
    importFromZip exZip "laptop" exImportedState = (exImportedState, ⟨0, 0, 0⟩) :=
  (archive_dedup exZip "laptop" exImportedState).1
    ⟨{ rowId := 1, zip_hash := "digest1", conversation_count := 3 }, by decide, rfl⟩

/-! ## Voice linking lemmas -/

/-- Invariant of the inner best-match fold: the accumulator is either the
untouched initial pair or an unused in-window transcript with its
difference, and the fold result improves on every unused candidate. -/
theorem findBestStep_fold (audioTs : Int) (w : Nat) (used : List String) :
    ∀ (ts : List TranscriptItem) (acc : Option TranscriptItem × Nat),
      (∀ t0, acc.1 = some t0 → acc.2 = (t0.ts - audioTs).natAbs ∧ acc.2 ≤ w ∧
        used.contains t0.path = false) →
      (acc.1 = none → acc.2 = w + 1) →
      (∀ t, (ts.foldl (findBestStep audioTs w used) acc).1 = some t →
        (ts.foldl (findBestStep audioTs w used) acc).2 = (t.ts - audioTs).natAbs ∧
        (t.ts - audioTs).natAbs ≤ w ∧ used.contains t.path = false ∧
        (acc.1 = some t ∨ t ∈ ts)) ∧
      (ts.foldl (findBestStep audioTs w used) acc).2 ≤ acc.2 ∧
      (∀ t' ∈ ts, used.contains t'.path = false →
        (ts.foldl (findBestStep audioTs w used) acc).2 ≤ (t'.ts - audioTs).natAbs) ∧
      ((ts.foldl (findBestStep audioTs w used) acc).1 = none →
        acc.1 = none ∧ (ts.foldl (findBestStep audioTs w used) acc).2 = w + 1) := by
  intro ts
  induction ts with
  | nil =>
    intro acc hsome hnone
    refine ⟨?_, le_refl _, ?_, ?_⟩
    · intro t h
      obtain ⟨h1, h2, h3⟩ := hsome t h
      exact ⟨h1, h1 ▸ h2, h3, Or.inl h⟩
    · intro t' h
      cases h
    · intro h
      exact ⟨h, hnone h⟩
  | cons t0 rest ih =>
    intro acc hsome hnone
    have haccw : acc.2 ≤ w + 1 := by
      cases hacc : acc.1 with
      | none => rw [hnone hacc]
      | some x => exact le_trans (hsome x hacc).2.1 (Nat.le_succ w)
    rw [List.foldl_cons]
    by_cases hu : used.contains t0.path = true
    · have hstep : findBestStep audioTs w used acc t0 = acc := by
        unfold findBestStep
        rw [hu]
        exact if_pos rfl
      rw [hstep]
      obtain ⟨ih1, ih2, ih3, ih4⟩ := ih acc hsome hnone
      refine ⟨?_, ih2, ?_, ih4⟩
      · intro t h
        obtain ⟨h1, h2, h3, h4⟩ := ih1 t h
        exact ⟨h1, h2, h3, h4.imp id (List.mem_cons_of_mem t0)⟩
      · intro t' ht' hut'
        rcases List.mem_cons.mp ht' with rfl | ht'
        · rw [hut'] at hu
          cases hu
        · exact ih3 t' ht' hut'
    · have hu' : used.contains t0.path = false := by
        simpa using hu
      by_cases himp : (t0.ts - audioTs).natAbs < acc.2 ∧ (t0.ts - audioTs).natAbs ≤ w
      · have hstep : findBestStep audioTs w used acc t0 =
            (some t0, (t0.ts - audioTs).natAbs) := by
          unfold findBestStep
          rw [hu']
          rw [if_neg (by simp)]
          show (if (t0.ts - audioTs).natAbs < acc.2 ∧ (t0.ts - audioTs).natAbs ≤ w
              then ((some t0 : Option TranscriptItem), (t0.ts - audioTs).natAbs) else acc)
            = (some t0, (t0.ts - audioTs).natAbs)
          exact if_pos himp
        rw [hstep]
        have hsome' : ∀ x, (some t0, (t0.ts - audioTs).natAbs).1 = some x →
            (some t0, (t0.ts - audioTs).natAbs).2 = (x.ts - audioTs).natAbs ∧
            (some t0, (t0.ts - audioTs).natAbs).2 ≤ w ∧ used.contains x.path = false := by
          intro x hx
          cases hx
          exact ⟨rfl, himp.2, hu'⟩
        have hnone' : (some t0, (t0.ts - audioTs).natAbs).1 = none →
            (some t0, (t0.ts - audioTs).natAbs).2 = w + 1 := by
          intro hx
          cases hx
        obtain ⟨ih1, ih2, ih3, ih4⟩ := ih _ hsome' hnone'
        refine ⟨?_, le_trans ih2 (le_of_lt himp.1), ?_, ?_⟩
        · intro t h
          obtain ⟨h1, h2, h3, h4⟩ := ih1 t h
          refine ⟨h1, h2, h3, ?_⟩
          rcases h4 with h4 | h4
          · cases h4
            exact Or.inr (List.mem_cons_self ..)
          · exact Or.inr (List.mem_cons_of_mem t0 h4)
        · intro t' ht' hut'
          rcases List.mem_cons.mp ht' with rfl | ht'
          · exact ih2
          · exact ih3 t' ht' hut'
        · intro h
          obtain ⟨habs, _⟩ := ih4 h
          cases habs
      · have hstep : findBestStep audioTs w used acc t0 = acc := by
          unfold findBestStep
          rw [hu']
          rw [if_neg (by simp)]
          show (if (t0.ts - audioTs).natAbs < acc.2 ∧ (t0.ts - audioTs).natAbs ≤ w
              then ((some t0 : Option TranscriptItem), (t0.ts - audioTs).natAbs) else acc)
            = acc
          exact if_neg himp
        rw [hstep]
        obtain ⟨ih1, ih2, ih3, ih4⟩ := ih acc hsome hnone
        refine ⟨?_, ih2, ?_, ih4⟩
        · intro t h
          obtain ⟨h1, h2, h3, h4⟩ := ih1 t h
          exact ⟨h1, h2, h3, h4.imp id (List.mem_cons_of_mem t0)⟩
        · intro t' ht' hut'
          rcases List.mem_cons.mp ht' with rfl | ht'
          · have : acc.2 ≤ (t'.ts - audioTs).natAbs := by
              rcases Nat.lt_or_ge (t'.ts - audioTs).natAbs acc.2 with hlt | hge
              · rcases le_or_lt (t'.ts - audioTs).natAbs w with hle | hgt
                · exact absurd ⟨hlt, hle⟩ himp
                · omega
              · exact hge
            exact le_trans ih2 this
          · exact ih3 t' ht' hut'

/-- Specification of `findBest`: a returned transcript is an unused
in-window transcript of minimal absolute difference, and `none` means no
unused transcript lies within the window. -/
theorem findBest_spec (audioTs : Int) (w : Nat) (ts : List TranscriptItem)
    (used : List String) :
    (∀ t, findBest audioTs w ts used = some t →
      t ∈ ts ∧ used.contains t.path = false ∧ (t.ts - audioTs).natAbs ≤ w ∧
      ∀ t' ∈ ts, used.contains t'.path = false →
        (t.ts - audioTs).natAbs ≤ (t'.ts - audioTs).natAbs) ∧
    (findBest audioTs w ts used = none →
      ∀ t' ∈ ts, used.contains t'.path = false → w < (t'.ts - audioTs).natAbs) := by
  obtain ⟨h1, _, h3, h4⟩ := findBestStep_fold audioTs w used ts (none, w + 1)
    (by intro t0 h; cases h) (by intro _; rfl)
  constructor
  · intro t h
    obtain ⟨hd, hw, hu, hm⟩ := h1 t h
    refine ⟨?_, hu, hw, ?_⟩
    · rcases hm with hm | hm
      · cases hm
      · exact hm
    · intro t' ht' hut'
      have := h3 t' ht' hut'
      rw [hd] at this
      exact this
  · intro h t' ht' hut'
    obtain ⟨_, hfull⟩ := h4 h
    have := h3 t' ht' hut'
    rw [hfull] at this
    omega

theorem linkLoop_used_mono (w : Nat) (T : List TranscriptItem) (dev : String) :
    ∀ (audios : List AudioItem) (used : List String) (x : String),
      used.contains x = true →
      (linkLoop w T dev audios used).2.contains x = true := by
  intro audios
  induction audios with
  | nil => intro used x h; exact h
  | cons a rest ih =>
    intro used x h
    rw [linkLoop]
    cases hb : findBest a.ts w T used with
    | none => exact ih used x h
    | some t0 =>
      apply ih
      rw [List.contains_cons, h, Bool.or_true]

theorem stableInsert_perm {α : Type} (le : α → α → Bool) (x : α) :
    ∀ (l : List α), (stableInsert le x l).Perm (x :: l) := by
  intro l
  induction l with
  | nil => exact List.Perm.refl _
  | cons b t ih =>
    unfold stableInsert
    by_cases hb : le b x = true
    · rw [if_pos hb]
      exact (ih.cons b).trans (List.Perm.swap x b t)
    · rw [if_neg hb]

theorem stableSort_foldl_perm {α : Type} (le : α → α → Bool) :
    ∀ (l acc : List α),
      (l.foldl (fun acc x => stableInsert le x acc) acc).Perm (acc ++ l) := by
  intro l
  induction l with
  | nil => intro acc; simp
  | cons x t ih =>
    intro acc
    rw [List.foldl_cons]
    refine (ih (stableInsert le x acc)).trans ?_
    refine (List.Perm.append_right t (stableInsert_perm le x acc)).trans ?_
    rw [List.cons_append]
    exact List.perm_middle.symm

theorem stableSort_perm {α : Type} (le : α → α → Bool) (l : List α) :
    (stableSort le l).Perm l := by
  have := stableSort_foldl_perm le l []
  simpa [stableSort] using this

/-- Every session emitted by the greedy loop computes its success flag from
its own transcript field. -/
theorem linkLoop_success (w : Nat) (T : List TranscriptItem) (dev : String) :
    ∀ (audios : List AudioItem) (used : List String),
      ∀ sess ∈ (linkLoop w T dev audios used).1,
        sess.success = (match sess.transcript with
          | some t => decide (0 < t.word_count)
          | none => false) := by
  intro audios
  induction audios with
  | nil =>
    intro used sess h
    simp [linkLoop] at h
  | cons a rest ih =>
    intro used sess h
    rw [linkLoop] at h
    rcases List.mem_cons.mp h with rfl | h
    · cases hb : findBest a.ts w T used <;> simp [hb]
    · exact ih _ sess h

theorem countP_eq_one_of_nodup_mem {α : Type} [DecidableEq α] :
    ∀ (l : List α), l.Nodup → ∀ a ∈ l, l.countP (fun x => decide (x = a)) = 1 := by
  intro l
  induction l with
  | nil => intro _ a ha; cases ha
  | cons b t ih =>
    intro hnd a ha
    obtain ⟨hb, hndt⟩ := List.nodup_cons.mp hnd
    rw [List.countP_cons]
    rcases List.mem_cons.mp ha with rfl | ha
    · have hz : t.countP (fun x => decide (x = a)) = 0 := by
        rw [List.countP_eq_zero]
        intro x hx
        simp only [decide_eq_true_eq]
        rintro rfl
        exact hb hx
      simp [hz]
    · have hne : (b = a) = False := by
        simp only [eq_iff_iff, iff_false]
        rintro rfl
        exact hb ha
      rw [ih hndt a ha]
      simp [hne]

/-- Count of a given transcript among the orphan records. -/
theorem orphan_count (dev : String) (u : List String) (T' : List TranscriptItem)
    (hnd : T'.Nodup) (t : TranscriptItem) (ht : t ∈ T') :
    ((T'.filter (fun x => !(u.contains x.path))).map (orphanOf dev)).countP
        (fun s => decide (s.transcript = some t)) =
      if u.contains t.path = false then 1 else 0 := by
  rw [List.countP_map]
  have hcongr : ∀ x ∈ T'.filter (fun x => !(u.contains x.path)),
      (((fun s => decide (s.transcript = some t)) ∘ orphanOf dev) x = true ↔
        (fun x => decide (x = t)) x = true) := by
    intro x _
    simp [orphanOf]
  rw [List.countP_congr hcongr]
  cases hu : u.contains t.path with
  | false =>
    rw [if_pos rfl]
    apply countP_eq_one_of_nodup_mem _ (hnd.filter _) t
    rw [List.mem_filter]
    refine ⟨ht, ?_⟩
    rw [hu]
    rfl
  | true =>
    rw [if_neg (by simp)]
    rw [List.countP_eq_zero]
    intro x hx
    simp only [decide_eq_true_eq]
    rintro rfl
    rw [List.mem_filter] at hx
    rw [hu] at hx
    simpa using hx.2

/-- Count of a given transcript among the greedy-loop sessions: exactly one
if the loop claimed its path, zero otherwise. -/
theorem linkLoop_cons (w : Nat) (T : List TranscriptItem) (dev : String)
    (a : AudioItem) (rest : List AudioItem) (used : List String) :
    linkLoop w T dev (a :: rest) used =
      (({ audio := some a
          transcript := findBest a.ts w T used
          source_device := dev
          success := match findBest a.ts w T used with
            | some t => decide (0 < t.word_count)
            | none => false
          created_at := a.ts } : VoiceLinked) ::
        (linkLoop w T dev rest (match findBest a.ts w T used with
          | some t => t.path :: used
          | none => used)).1,
       (linkLoop w T dev rest (match findBest a.ts w T used with
          | some t => t.path :: used
          | none => used)).2) := by
  rw [linkLoop]

/-- Count of a given transcript among the greedy-loop sessions: exactly one
if the loop claimed its path, zero otherwise. -/
theorem linkLoop_count (w : Nat) (T : List TranscriptItem) (dev : String)
    (hp : (T.map (fun t => t.path)).Nodup) :
    ∀ (audios : List AudioItem) (used : List String) (t : TranscriptItem), t ∈ T →
      (linkLoop w T dev audios used).1.countP
          (fun s => decide (s.transcript = some t)) =
        if (linkLoop w T dev audios used).2.contains t.path = true ∧
            used.contains t.path = false then 1 else 0 := by
  intro audios
  induction audios with
  | nil =>
    intro used t ht
    rw [linkLoop]
    rw [if_neg]
    · rfl
    · rintro ⟨h1, h2⟩
      rw [h1] at h2
      cases h2
  | cons a rest ih =>
    intro used t ht
    rw [linkLoop_cons]
    cases hb : findBest a.ts w T used with
    | none =>
      simp only [List.countP_cons]
      rw [ih used t ht]
      simp
    | some t0 =>
      obtain ⟨ht0, hu0, _, _⟩ := (findBest_spec a.ts w T used).1 t0 hb
      simp only [List.countP_cons]
      by_cases heq : t = t0
      · subst heq
        rw [ih (t.path :: used) t ht]
        have hmono := linkLoop_used_mono w T dev rest (t.path :: used) t.path
          (by rw [List.contains_cons]; simp)
        have hcond1 : ¬((linkLoop w T dev rest (t.path :: used)).2.contains t.path = true ∧
            (t.path :: used).contains t.path = false) := by
          rintro ⟨_, h2⟩
          rw [List.contains_cons] at h2
          simp at h2
        rw [if_neg hcond1]
        have hcond2 : (linkLoop w T dev rest (t.path :: used)).2.contains t.path = true ∧
            used.contains t.path = false := ⟨hmono, hu0⟩
        rw [if_pos hcond2]
        simp
      · have hpath : t.path ≠ t0.path := fun hpp =>
          heq (List.inj_on_of_nodup_map hp ht ht0 hpp)
        rw [ih (t0.path :: used) t ht]
        have hcc0 : (t0.path :: used).contains t.path = used.contains t.path := by
          rw [List.contains_cons]
          simp [hpath]
        rw [hcc0]
        have hhead : (decide ((some t0 : Option TranscriptItem) = some t)) = false := by
          rw [decide_eq_false_iff_not]
          intro h
          exact heq (Option.some.inj h).symm
        rw [hhead]
        simp

/-! ## Claim C5 -/

/-- C5.  With both collections sorted by timestamp, the linker scans the
not-yet-used transcripts for each audio item and selects one minimizing the
absolute timestamp difference subject to the tolerance window (`findBest`);
a selected transcript is marked used and emitted with the audio, an audio
with no qualifying transcript is emitted alone, and after the loop every
unclaimed transcript is emitted as an orphan; in particular, an audio at
12:00:00 with transcripts at 12:00:30 and 12:05:00 and a 60-second window
links to the 12:00:30 transcript only, the 12:05:00 one becoming an
orphan. -/
theorem greedy_timestamp_linking :
    (∀ (audioTs : Int) (w : Nat) (ts : List TranscriptItem) (used : List String),
      (∀ t, findBest audioTs w ts used = some t →
        t ∈ ts ∧ used.contains t.path = false ∧ (t.ts - audioTs).natAbs ≤ w ∧
        ∀ t' ∈ ts, used.contains t'.path = false →
          (t.ts - audioTs).natAbs ≤ (t'.ts - audioTs).natAbs) ∧
      (findBest audioTs w ts used = none →
        ∀ t' ∈ ts, used.contains t'.path = false →
          w < (t'.ts - audioTs).natAbs)) ∧
    (∀ (audios : List AudioItem) (T : List TranscriptItem) (w : Nat) (dev : String),
      link_sessions audios T w dev =
        (linkLoop w (stableSort (fun a b => a.ts ≤ b.ts) T) dev
            (stableSort (fun a b => a.ts ≤ b.ts) audios) []).1 ++
          ((stableSort (fun a b => a.ts ≤ b.ts) T).filter (fun t =>
            !((linkLoop w (stableSort (fun a b => a.ts ≤ b.ts) T) dev
                (stableSort (fun a b => a.ts ≤ b.ts) audios) []).2.contains t.path))).map
            (orphanOf dev)) ∧
    link_sessions [exAudio] [exTr1, exTr2] 60 "studio" =
      [{ audio := some exAudio, transcript := some exTr1, source_device := "studio",
         success := true, created_at := 43200 },
       { audio := none, transcript := some exTr2, source_device := "studio",
         success := true, created_at := 43500 }] := by
  refine ⟨fun audioTs w ts used => findBest_spec audioTs w ts used, ?_, by decide⟩
  intro audios T w dev
  rfl

/-- Witness for C5: the concrete best match for the example audio among the
two example transcripts. -/
theorem greedy_timestamp_linking_witness :
    exTr1 ∈ [exTr1, exTr2] ∧ ([] : List String).contains exTr1.path = false ∧
      (exTr1.ts - 43200).natAbs ≤ 60 := by
  have h := (greedy_timestamp_linking.1 43200 60 [exTr1, exTr2] []).1 exTr1 (by decide)
  exact ⟨h.1, h.2.1, h.2.2.1⟩

/-! ## Claim C7 -/

/-- C7.  Every record emitted by one timestamp-linking run carries
`success = true` exactly when it holds a transcript with positive word
count; in particular a record without a transcript, and a record whose
transcript has word count zero, both carry `success = false`. -/
theorem linked_success_flag :
    ∀ (audios : List AudioItem) (T : List TranscriptItem) (w : Nat) (dev : String),
      ∀ sess ∈ link_sessions audios T w dev,
        (sess.success = true ↔ ∃ t, sess.transcript = some t ∧ 0 < t.word_count) ∧
        (sess.transcript = none → sess.success = false) := by
  intro audios T w dev sess h
  have hform : sess.success = (match sess.transcript with
      | some t => decide (0 < t.word_count)
      | none => false) := by
    unfold link_sessions at h
    rcases List.mem_append.mp h with h | h
    · exact linkLoop_success w _ dev _ [] sess h
    · rw [List.mem_map] at h
      obtain ⟨t, _, ht⟩ := h
      rw [← ht]
      simp [orphanOf]
  constructor
  · rw [hform]
    cases hx : sess.transcript with
    | none => simp
    | some t =>
      simp only [decide_eq_true_eq, Option.some.injEq]
      constructor
      · intro hwc
        exact ⟨t, rfl, hwc⟩
      · rintro ⟨t', ht', hwc⟩
        cases ht'
        exact hwc
  · intro hx
    rw [hform, hx]

/-- Witness for C7: the audio-only session of a run with no transcripts has
a false success flag. -/
theorem linked_success_flag_witness :
    ({ audio := some exAudio, transcript := none, source_device := "studio",
       success := false, created_at := 43200 } : VoiceLinked).success = false :=
  (linked_success_flag [exAudio] [] 60 "studio"
    { audio := some exAudio, transcript := none, source_device := "studio",
      success := false, created_at := 43200 } (by decide)).2 rfl

/-! ## Claim C9 -/

/-- C9.  When the scanned transcripts have pairwise distinct file paths
(the key of the used-transcript set), every transcript occurs in exactly
one emitted record of the run: either matched to exactly one audio item or
orphaned exactly once — never both, and never matched twice. -/
theorem transcript_exactly_once :
    ∀ (audios : List AudioItem) (T : List TranscriptItem) (w : Nat) (dev : String),
      (T.map (fun t => t.path)).Nodup →
      ∀ t ∈ T,
        (link_sessions audios T w dev).countP
          (fun s => decide (s.transcript = some t)) = 1 := by
  intro audios T w dev hp t ht
  have hperm : (stableSort (fun a b => a.ts ≤ b.ts) T).Perm T :=
    stableSort_perm (fun a b => a.ts ≤ b.ts) T
  have hpS : ((stableSort (fun a b => a.ts ≤ b.ts) T).map (fun t => t.path)).Nodup :=
    (List.Perm.nodup_iff (hperm.map (fun t => t.path))).mpr hp
  have htS : t ∈ stableSort (fun a b => a.ts ≤ b.ts) T := hperm.mem_iff.mpr ht
  have hndS : (stableSort (fun a b => a.ts ≤ b.ts) T).Nodup := hpS.of_map
  unfold link_sessions
  rw [List.countP_append]
  rw [linkLoop_count w _ dev hpS _ [] t htS]
  rw [orphan_count dev _ _ hndS t htS]
  cases hc : (linkLoop w (stableSort (fun a b => a.ts ≤ b.ts) T) dev
      (stableSort (fun a b => a.ts ≤ b.ts) audios) []).2.contains t.path with
  | true =>
    have hcond : true = true ∧ ([] : List String).contains t.path = false := ⟨rfl, rfl⟩
    rw [if_pos hcond, if_neg (by simp)]
  | false =>
    rw [if_neg (by rintro ⟨h1, _⟩; cases h1), if_pos rfl]

/-- Witness for C9: in the example run, transcript `exTr1` (matched) occurs
in exactly one emitted record. -/
theorem transcript_exactly_once_witness :
    (link_sessions [exAudio] [exTr1, exTr2] 60 "studio").countP
      (fun s => decide (s.transcript = some exTr1)) = 1 :=
  transcript_exactly_once [exAudio] [exTr1, exTr2] 60 "studio" (by decide)
    exTr1 (by decide)

/-! ## Telemetry watermark lemmas -/

theorem foldl_max_bound (l : List Int) :
    ∀ a : Int, a ≤ l.foldl max a ∧ ∀ x ∈ l, x ≤ l.foldl max a := by
  induction l with
  | nil =>
    intro a
    exact ⟨le_refl a, by intro x hx; cases hx⟩
  | cons b t ih =>
    intro a
    rw [List.foldl_cons]
    obtain ⟨h1, h2⟩ := ih (max a b)
    refine ⟨le_trans (le_max_left a b) h1, ?_⟩
    intro x hx
    rcases List.mem_cons.mp hx with rfl | hx
    · exact le_trans (le_max_right a x) h1
    · exact h2 x hx

/-- Behaviour of `MAX(...) or 0`: zero on an empty selection, an upper
bound of the selection, and attained on a non-empty selection. -/
theorem maxD_spec (l : List Int) :
    (l = [] → l.max?.getD 0 = 0) ∧ (∀ x ∈ l, x ≤ l.max?.getD 0) ∧
    (l ≠ [] → l.max?.getD 0 ∈ l) := by
  refine ⟨?_, ?_, ?_⟩
  · rintro rfl
    rfl
  · intro x hx
    cases l with
    | nil => cases hx
    | cons b t =>
      have hq : (b :: t).max? = some (t.foldl max b) := rfl
      rw [hq]
      obtain ⟨h1, h2⟩ := foldl_max_bound t b
      rcases List.mem_cons.mp hx with rfl | hx
      · exact h1
      · exact h2 x hx
  · intro hne
    cases hm : l.max? with
    | none => exact absurd (List.max?_eq_none_iff.mp hm) hne
    | some m =>
      exact List.max?_mem (fun a b => max_choice a b) hm

theorem get_last_metric_spec (store : List MetricRecord) (dev : String) :
    ((store.filter (fun r => r.source_device == dev)) = [] →
      get_last_metric_timestamp store dev = 0) ∧
    (∀ rec ∈ store, rec.source_device = dev →
      rec.timestamp_unix ≤ get_last_metric_timestamp store dev) ∧
    ((store.filter (fun r => r.source_device == dev)) ≠ [] →
      ∃ rec ∈ store, rec.source_device = dev ∧
        rec.timestamp_unix = get_last_metric_timestamp store dev) := by
  obtain ⟨hm1, hm2, hm3⟩ := maxD_spec
    ((store.filter (fun r => r.source_device == dev)).map (fun r => r.timestamp_unix))
  refine ⟨?_, ?_, ?_⟩
  · intro hempty
    apply hm1
    rw [hempty]
    rfl
  · intro rec hrec hdev
    apply hm2
    rw [List.mem_map]
    exact ⟨rec, List.mem_filter.mpr ⟨hrec, by simp [hdev]⟩, rfl⟩
  · intro hne
    have hne' : (store.filter (fun r => r.source_device == dev)).map
        (fun r => r.timestamp_unix) ≠ [] := by
      intro h
      exact hne (List.map_eq_nil_iff.mp h)
    have hmem := hm3 hne'
    rw [List.mem_map] at hmem
    obtain ⟨rec, hrecf, hts⟩ := hmem
    rw [List.mem_filter] at hrecf
    exact ⟨rec, hrecf.1, by simpa using hrecf.2, hts⟩

theorem get_last_event_nonneg (store : List EventRecord) (dev : String)
    (h : ∀ r ∈ store, 0 ≤ r.timestamp_unix) :
    0 ≤ get_last_event_timestamp store dev := by
  unfold get_last_event_timestamp
  cases hm : ((store.filter (fun r => r.source_device == dev)).map
      (fun r => r.timestamp_unix)).max? with
  | none => exact le_refl 0
  | some m =>
    have hmem := List.max?_mem (fun a b => max_choice a b) hm
    rw [List.mem_map] at hmem
    obtain ⟨rec, hrecf, hts⟩ := hmem
    rw [List.mem_filter] at hrecf
    rw [Option.getD_some]
    rw [← hts]
    exact h rec hrecf.1

/-! ## Claim C6 -/

/-- C6.  The watermark of an incremental telemetry run is the maximum
timestamp already stored for the device (0 when none exist): zero on an
empty selection, an upper bound of the stored timestamps for the device,
and attained by one of them otherwise.  A run appends exactly the parsed
records, and a decoded line survives the filter iff its timestamp is
strictly greater than the watermark; ingesting [100, 200] and then
[150, 250] for the same device stores exactly \{100, 200, 250\}, dropping
150. -/
theorem incremental_watermark :
    ∀ (dev : String) (store : List MetricRecord) (lines : List (Option RawTelemetry)),
      ((store.filter (fun r => r.source_device == dev)) = [] →
        get_last_metric_timestamp store dev = 0) ∧
      (∀ rec ∈ store, rec.source_device = dev →
        rec.timestamp_unix ≤ get_last_metric_timestamp store dev) ∧
      ((store.filter (fun r => r.source_device == dev)) ≠ [] →
        ∃ rec ∈ store, rec.source_device = dev ∧
          rec.timestamp_unix = get_last_metric_timestamp store dev) ∧
      (metricsRun dev store lines).1 =
        store ++ parse_metrics dev (get_last_metric_timestamp store dev) lines ∧
      (∀ data : RawTelemetry,
        (parseMetricLine dev (get_last_metric_timestamp store dev) (some data)).isSome =
          decide (get_last_metric_timestamp store dev < data.timestamp.getD 0)) ∧
      ((metricsRun "d" (metricsRun "d" [] exLines1).1 exLines2).1.map
        (fun r => r.timestamp_unix)) = [100, 200, 250] := by
  intro dev store lines
  obtain ⟨h1, h2, h3⟩ := get_last_metric_spec store dev
  refine ⟨h1, h2, h3, rfl, ?_, by decide⟩
  intro data
  by_cases h : data.timestamp.getD 0 ≤ get_last_metric_timestamp store dev
  · have hnone : parseMetricLine dev (get_last_metric_timestamp store dev)
        (some data) = none := by
      unfold parseMetricLine
      exact if_pos h
    rw [hnone]
    have : ¬ get_last_metric_timestamp store dev < data.timestamp.getD 0 := not_lt.mpr h
    simp [this]
  · have hsome : parseMetricLine dev (get_last_metric_timestamp store dev)
        (some data) = some { timestamp_unix := data.timestamp.getD 0
                             source_device := dev
                             payload := data.payload } := by
      unfold parseMetricLine
      exact if_neg h
    rw [hsome]
    have : get_last_metric_timestamp store dev < data.timestamp.getD 0 := not_le.mp h
    simp [this]

/-- Witness for C6: the per-line filter at a concrete store and line. -/
theorem incremental_watermark_witness :
    (parseMetricLine "d" (get_last_metric_timestamp [] "d")
      (some { timestamp := some 5 })).isSome =
      decide (get_last_metric_timestamp [] "d" < 5) :=
  (incremental_watermark "d" [] []).2.2.2.2.1 { timestamp := some 5 }

/-! ## Claim C10 -/

/-- C10.  A telemetry line whose JSON object lacks the timestamp field is
assigned timestamp 0 by `data.get('timestamp', 0)` and therefore fails the
strictly-greater watermark test on every run with a non-negative watermark
— and the watermark is non-negative whenever the store holds only
non-negative timestamps, in particular 0 on the very first run against an
empty store; such records are never ingested, for metrics and for
events. -/
theorem missing_timestamp_discarded :
    ∀ (dev : String) (sinceM sinceE : Int) (data : RawTelemetry)
      (storeM : List MetricRecord) (storeE : List EventRecord),
      (0 ≤ sinceM → data.timestamp = none →
        parseMetricLine dev sinceM (some data) = none) ∧
      (0 ≤ sinceE → data.timestamp = none →
        parseEventLine dev sinceE (some data) = none) ∧
      ((∀ r ∈ storeM, 0 ≤ r.timestamp_unix) →
        0 ≤ get_last_metric_timestamp storeM dev) ∧
      ((∀ r ∈ storeE, 0 ≤ r.timestamp_unix) →
        0 ≤ get_last_event_timestamp storeE dev) ∧
      get_last_metric_timestamp [] dev = 0 ∧
      parse_metrics dev 0 [some { timestamp := none }] = [] ∧
      parse_events dev 0 [some { timestamp := none }] = [] := by
  intro dev sinceM sinceE data storeM storeE
  refine ⟨?_, ?_, ?_, get_last_event_nonneg storeE dev, rfl, rfl, rfl⟩
  · intro hs hts
    simp only [parseMetricLine, hts, Option.getD_none]
    exact if_pos hs
  · intro hs hts
    simp only [parseEventLine, hts, Option.getD_none]
    exact if_pos hs
  · intro hpos
    unfold get_last_metric_timestamp
    cases hm : ((storeM.filter (fun r => r.source_device == dev)).map
        (fun r => r.timestamp_unix)).max? with
    | none => exact le_refl 0
    | some m =>
      have hmem := List.max?_mem (fun a b => max_choice a b) hm
      rw [List.mem_map] at hmem
      obtain ⟨rec, hrecf, hts⟩ := hmem
      rw [List.mem_filter] at hrecf
      rw [Option.getD_some, ← hts]
      exact hpos rec hrecf.1

/-- Witness for C10: a metrics line without a timestamp is dropped on the
first run against the empty store. -/
theorem missing_timestamp_discarded_witness :
    parseMetricLine "d" 0 (some { timestamp := none }) = none :=
  (missing_timestamp_discarded "d" 0 0 { timestamp := none } [] []).1
    (le_refl 0) rfl

/-! ## Claude session time lemmas -/

theorem capturedTimestamps_ne_empty (lines : List (Option SessLine)) :
    ∀ x ∈ capturedTimestamps lines, x ≠ "" := by
  intro x hx
  unfold capturedTimestamps at hx
  rw [List.mem_filterMap] at hx
  obtain ⟨l, _, hl⟩ := hx
  cases l with
  | none => cases hl
  | some d =>
    have hl' : (if (d.type = "user" ∨ d.type = "assistant") ∧ d.timestamp ≠ ""
        then some d.timestamp else none) = some x := hl
    by_cases hc : (d.type = "user" ∨ d.type = "assistant") ∧ d.timestamp ≠ ""
    · rw [if_pos hc] at hl'
      injection hl' with h
      subst h
      exact hc.2
    · rw [if_neg hc] at hl'
      cases hl'

/-! ## Claim C8 -/

/-- Counterexample to C8 as stated: a session with exactly one captured
turn timestamp (fewer than two) still gets a duration — `started_at` and
`ended_at` are both that timestamp, both truthy, and the parsed difference
is 0 seconds — where the claim demands the duration be left absent. -/
theorem session_times_counterexample :
    (capturedTimestamps exSingleTurn).length = 1 ∧
    sessionTimes (fun _ => some 7) exSingleTurn =
      some { started_at := some "b", ended_at := some "b",
             duration_seconds := some 0 } :=
  ⟨rfl, by decide⟩

/-- C8, amended.  For every reconstructed session (at least one turn line):
the session is always produced with `started_at`/`ended_at` equal to the
minimum/maximum of the captured turn timestamps; the duration is their
parsed difference in seconds whenever both endpoints parse (0 when only one
timestamp exists, since both endpoints coincide), and is left absent when
no timestamp was captured or parsing fails — a failure never aborts the
reconstruction. -/
theorem session_times :
    ∀ (parseTs : String → Option Int) (lines : List (Option SessLine)),
      turnCount lines ≠ 0 →
      ∃ st, sessionTimes parseTs lines = some st ∧
        st.started_at = (capturedTimestamps lines).min? ∧
        st.ended_at = (capturedTimestamps lines).max? ∧
        (capturedTimestamps lines = [] → st.duration_seconds = none) ∧
        (∀ s e, (capturedTimestamps lines).min? = some s →
          (capturedTimestamps lines).max? = some e →
          st.duration_seconds = (match parseTs s, parseTs e with
            | some a, some b => some (b - a)
            | _, _ => none)) := by
  intro parseTs lines h
  unfold sessionTimes
  rw [if_neg h]
  refine ⟨_, rfl, rfl, rfl, ?_, ?_⟩
  · intro hcap
    show (if (pyTruthyStr (capturedTimestamps lines).min? &&
          pyTruthyStr (capturedTimestamps lines).max?) = true then
        match parseTs (((capturedTimestamps lines).min?).getD ""),
          parseTs (((capturedTimestamps lines).max?).getD "") with
        | some a, some b => some (b - a)
        | _, _ => none
      else none) = none
    rw [hcap]
    rfl
  · intro s e hs he
    have hsne : s ≠ "" :=
      capturedTimestamps_ne_empty lines s
        (List.min?_mem (fun a b => min_choice a b) hs)
    have hene : e ≠ "" :=
      capturedTimestamps_ne_empty lines e
        (List.max?_mem (fun a b => max_choice a b) he)
    show (if (pyTruthyStr (capturedTimestamps lines).min? &&
          pyTruthyStr (capturedTimestamps lines).max?) = true then
        match parseTs (((capturedTimestamps lines).min?).getD ""),
          parseTs (((capturedTimestamps lines).max?).getD "") with
        | some a, some b => some (b - a)
        | _, _ => none
      else none) =
      (match parseTs s, parseTs e with
        | some a, some b => some (b - a)
        | _, _ => none)
    rw [hs, he]
    have h1 : pyTruthyStr (some s) = true := by
      simp [pyTruthyStr, hsne]
    have h2 : pyTruthyStr (some e) = true := by
      simp [pyTruthyStr, hene]
    rw [h1, h2]
    rfl

/-- Witness for C8: the two-turn fixture always yields a session record. -/
theorem session_times_witness :
    (sessionTimes (fun s => if s = "a" then some 3 else some 9)
      exTwoTurns).isSome = true := by
  obtain ⟨st, hst, _⟩ := session_times (fun s => if s = "a" then some 3 else some 9)
    exTwoTurns (by decide)
  rw [hst]
  rfl

end Datalake